import Mathlib

/-!
Verification of the mutable-update core (DeltaMemStore / MVCC) and the
MonoDelta time utilities of the kuduraft repository, against a shallow
embedding in Lean 4.

The `MonoDelta` section is translated directly from
`src/kudu/util/monotime.cc`.  The DeltaMemStore / MVCC definitions are
modelled from the specification (`spec.md`), because only the test file
`src/tablet/deltamemstore-test.cc` is present in the sources; each such
definition carries a doc comment starting with `Modelled from the spec:`.
-/

/-! ## Machine-integer helpers -/

/-- Wrap an unbounded integer into the signed 64-bit range, the way
two's-complement `int64_t` arithmetic behaves on overflow. -/
def wrap64 (x : Int) : Int := (x + 2 ^ 63) % 2 ^ 64 - 2 ^ 63

theorem wrap64_eq_self {x : Int} (h1 : -(2 ^ 63) ≤ x) (h2 : x < 2 ^ 63) :
    wrap64 x = x := by
  unfold wrap64
  omega

/-! ## MonoDelta (translated from src/kudu/util/monotime.cc) -/

namespace MonoTimeConsts

/-- Modelled from the spec: the unit-conversion constants are declared in
`monotime.h`, which is not among the sources; their values are forced by the
unit names. Nanoseconds per second. -/
def kNanosecondsPerSecond : Int := 1000000000

/-- Modelled from the spec: nanoseconds per millisecond (from `monotime.h`). -/
def kNanosecondsPerMillisecond : Int := 1000000

/-- Modelled from the spec: nanoseconds per microsecond (from `monotime.h`). -/
def kNanosecondsPerMicrosecond : Int := 1000

end MonoTimeConsts

/-- The MonoDelta value holds a signed 64-bit nanosecond count (field
`nano_delta_` in monotime.cc). -/
structure MonoDelta where
  nano_delta_ : Int

/-- Modelled from the spec: `kUninitialized` is declared in `monotime.h`
(not among the sources) as the sentinel for a default-constructed
`MonoDelta`; it is the minimum `int64_t` value. -/
def MonoDelta.kUninitialized : Int := -(2 ^ 63)

/-- Translated from monotime.cc: `MonoDelta::FromMilliseconds(ms)` multiplies
by `kNanosecondsPerMillisecond` in `int64_t` arithmetic. -/
def MonoDelta.FromMilliseconds (ms : Int) : MonoDelta :=
  ⟨wrap64 (ms * MonoTimeConsts.kNanosecondsPerMillisecond)⟩

/-- Translated from monotime.cc: `MonoDelta::FromMicroseconds(us)`. -/
def MonoDelta.FromMicroseconds (us : Int) : MonoDelta :=
  ⟨wrap64 (us * MonoTimeConsts.kNanosecondsPerMicrosecond)⟩

/-- Translated from monotime.cc: `MonoDelta::ToMilliseconds()`.  C++ signed
integer division truncates toward zero, which is `Int.tdiv`. -/
def MonoDelta.ToMilliseconds (d : MonoDelta) : Int :=
  d.nano_delta_.tdiv MonoTimeConsts.kNanosecondsPerMillisecond

/-- Translated from monotime.cc: `MonoDelta::ToMicroseconds()`. -/
def MonoDelta.ToMicroseconds (d : MonoDelta) : Int :=
  d.nano_delta_.tdiv MonoTimeConsts.kNanosecondsPerMicrosecond

/-- Translated from monotime.cc: `MonoDelta::Initialized()`. -/
def MonoDelta.Initialized (d : MonoDelta) : Bool :=
  d.nano_delta_ != MonoDelta.kUninitialized

/-- Translated from monotime.cc: `MonoDelta::NanosToTimeSpec(nanos, ts)` sets
`tv_sec = nanos / kNanosecondsPerSecond` (truncating `int64_t` division),
`tv_nsec = nanos - tv_sec * kNanosecondsPerSecond`, then if `tv_nsec < 0`
borrows one second.  Returned as the pair `(tv_sec, tv_nsec)`. -/
def MonoDelta.NanosToTimeSpec (nanos : Int) : Int × Int :=
  let sec := nanos.tdiv MonoTimeConsts.kNanosecondsPerSecond
  let nsec := wrap64 (nanos - wrap64 (sec * MonoTimeConsts.kNanosecondsPerSecond))
  if nsec < 0 then
    (wrap64 (sec - 1), wrap64 (nsec + MonoTimeConsts.kNanosecondsPerSecond))
  else
    (sec, nsec)

/-- Truncating division expressed through Euclidean division, by sign cases,
so that `omega` can reason about it. -/
theorem tdiv_cases (n b : Int) (hb : 0 ≤ b) :
    n.tdiv b = if 0 ≤ n then n / b else -((-n) / b) := by
  split
  · exact Int.tdiv_eq_ediv (by assumption) hb
  · rename_i h
    have h1 : n.tdiv b = -((-n).tdiv b) := by rw [← Int.neg_tdiv, neg_neg]
    rw [h1, Int.tdiv_eq_ediv (by omega) hb]

/-- C9: for every `int64` nanosecond count, `NanosToTimeSpec` produces a
normalized timespec: `0 ≤ tv_nsec < 1000000000` and
`tv_sec * 1000000000 + tv_nsec = nanos` exactly, including for negative
inputs where one second is borrowed. -/
theorem NanosToTimeSpec_exact (n : Int)
    (h1 : -(2 ^ 63) ≤ n) (h2 : n < 2 ^ 63) :
    0 ≤ (MonoDelta.NanosToTimeSpec n).2 ∧
      (MonoDelta.NanosToTimeSpec n).2 < 1000000000 ∧
      (MonoDelta.NanosToTimeSpec n).1 * 1000000000 +
        (MonoDelta.NanosToTimeSpec n).2 = n := by
  unfold MonoDelta.NanosToTimeSpec
  rw [tdiv_cases n _ (by norm_num [MonoTimeConsts.kNanosecondsPerSecond])]
  simp only [MonoTimeConsts.kNanosecondsPerSecond, wrap64]
  split <;> split <;> simp <;> omega

/-- Witness for C9 at the negative input `-1500000001`, which exercises the
borrow branch. -/
theorem NanosToTimeSpec_exact_witness :
    (-(2 ^ 63) ≤ (-1500000001 : Int) ∧ (-1500000001 : Int) < 2 ^ 63) ∧
      (0 ≤ (MonoDelta.NanosToTimeSpec (-1500000001)).2 ∧
        (MonoDelta.NanosToTimeSpec (-1500000001)).2 < 1000000000 ∧
        (MonoDelta.NanosToTimeSpec (-1500000001)).1 * 1000000000 +
          (MonoDelta.NanosToTimeSpec (-1500000001)).2 = -1500000001) :=
  ⟨by decide, NanosToTimeSpec_exact (-1500000001) (by decide) (by decide)⟩

/-- C10: millisecond and microsecond round-trips are exact whenever the
scaled value fits in `int64` and is not the uninitialized sentinel. -/
theorem MonoDelta_ms_us_roundtrip (ms us : Int)
    (hms1 : -(2 ^ 63) ≤ ms * 1000000) (hms2 : ms * 1000000 < 2 ^ 63)
    (hms3 : ms * 1000000 ≠ MonoDelta.kUninitialized)
    (hus1 : -(2 ^ 63) ≤ us * 1000) (hus2 : us * 1000 < 2 ^ 63)
    (hus3 : us * 1000 ≠ MonoDelta.kUninitialized) :
    (MonoDelta.FromMilliseconds ms).ToMilliseconds = ms ∧
      (MonoDelta.FromMicroseconds us).ToMicroseconds = us := by
  unfold MonoDelta.FromMilliseconds MonoDelta.ToMilliseconds
    MonoDelta.FromMicroseconds MonoDelta.ToMicroseconds
  simp only [MonoTimeConsts.kNanosecondsPerMillisecond,
    MonoTimeConsts.kNanosecondsPerMicrosecond]
  rw [wrap64_eq_self hms1 hms2, wrap64_eq_self hus1 hus2]
  constructor
  · exact Int.mul_tdiv_cancel ms (by norm_num)
  · exact Int.mul_tdiv_cancel us (by norm_num)

/-- Witness for C10 at `ms = -7`, `us = 42`. -/
theorem MonoDelta_ms_us_roundtrip_witness :
    ((-(2 ^ 63) ≤ (-7 : Int) * 1000000 ∧ (-7 : Int) * 1000000 < 2 ^ 63 ∧
        (-7 : Int) * 1000000 ≠ MonoDelta.kUninitialized) ∧
      (-(2 ^ 63) ≤ (42 : Int) * 1000 ∧ (42 : Int) * 1000 < 2 ^ 63 ∧
        (42 : Int) * 1000 ≠ MonoDelta.kUninitialized)) ∧
      ((MonoDelta.FromMilliseconds (-7)).ToMilliseconds = -7 ∧
        (MonoDelta.FromMicroseconds 42).ToMicroseconds = 42) :=
  ⟨by constructor <;> refine ⟨by decide, by decide, by decide⟩,
    MonoDelta_ms_us_roundtrip (-7) 42 (by decide) (by decide) (by decide)
      (by decide) (by decide) (by decide)⟩

/-! ## MVCC model

The MvccManager / MvccSnapshot / DeltaMemStore / DMSIterator implementation
files are not among the sources (only the test `deltamemstore-test.cc` is),
so they are modelled from the specification. -/

/-- Modelled from the spec: MvccManager (spec.md §4.1), implemented only by
`tablet/mvcc.h`/`mvcc.cc`, which are missing from the sources.  It tracks the
next transaction ID to issue and the set of in-flight IDs. -/
structure MvccManager where
  next_txid : Nat
  inflight : List Nat
deriving DecidableEq

/-- Modelled from the spec: a fresh manager.  The first issued ID is 1, as in
the spec's concrete scenario (txn 1, txn 2). -/
def MvccManager.init : MvccManager := ⟨1, []⟩

/-- Modelled from the spec: `StartTransaction` allocates the next ID and
records it as in-flight (spec.md §4.1). -/
def MvccManager.StartTransaction (m : MvccManager) : Nat × MvccManager :=
  (m.next_txid, ⟨m.next_txid + 1, m.next_txid :: m.inflight⟩)

/-- Modelled from the spec: `CommitTransaction` removes the ID from the
in-flight set (spec.md §4.1). -/
def MvccManager.CommitTransaction (m : MvccManager) (txid : Nat) : MvccManager :=
  ⟨m.next_txid, m.inflight.erase txid⟩

/-- Modelled from the spec: MvccSnapshot wraps an upper bound (every ID at or
above it is invisible) plus the set of IDs that were in-flight at capture
time (spec.md §3). -/
structure MvccSnapshot where
  none_after : Nat
  excluded : List Nat
deriving DecidableEq

/-- Modelled from the spec: `TakeSnapshot` captures the current in-flight set
and the ID bound (spec.md §4.1). -/
def MvccManager.TakeSnapshot (m : MvccManager) : MvccSnapshot :=
  ⟨m.next_txid, m.inflight⟩

/-- Modelled from the spec: a transaction is visible in a snapshot iff it had
started (ID below the captured bound) and was not in-flight at capture time
(spec.md §3, §4.1). -/
def MvccSnapshot.IsCommitted (s : MvccSnapshot) (txid : Nat) : Bool :=
  decide (txid < s.none_after) && !(s.excluded.contains txid)

/-- A manager call made by a `ScopedTransaction` guard. -/
inductive MvccEvent where
  | start (txid : Nat)
  | commit (txid : Nat)
deriving DecidableEq

/-! ## DeltaMemStore model -/

/-- Modelled from the spec: composite delta key `(row_index, txn_id)`
(spec.md §3). -/
structure DeltaKey where
  row_idx : Nat
  txid : Nat
deriving DecidableEq

/-- Row-major then txn-major ascending order on delta keys (spec.md §3). -/
def DeltaKey.leP (a b : DeltaKey) : Prop :=
  a.row_idx < b.row_idx ∨ (a.row_idx = b.row_idx ∧ a.txid ≤ b.txid)

instance : DecidableRel DeltaKey.leP := fun a b =>
  inferInstanceAs (Decidable (a.row_idx < b.row_idx ∨ (a.row_idx = b.row_idx ∧ a.txid ≤ b.txid)))

/-- Modelled from the spec: a decoded RowChangeList is the sequence of
(column index, new value) pairs in the order `AddColumnUpdate` appended them
(spec.md §4.3).  The value type is a parameter: claims about plain byte
values use `List Nat`, the arena-safety claim uses `StoredVal`. -/
abbrev RowChange (V : Type) := List (Nat × V)

/-- One delta entry: key plus decoded change list (spec.md §3). -/
abbrev DeltaEntry (V : Type) := DeltaKey × RowChange V

/-- Key order lifted to entries. -/
def entryLE {V : Type} (a b : DeltaEntry V) : Prop := DeltaKey.leP a.1 b.1

instance {V : Type} : DecidableRel (@entryLE V) := fun a b =>
  inferInstanceAs (Decidable (DeltaKey.leP a.1 b.1))

instance {V : Type} : IsTotal (DeltaEntry V) entryLE :=
  ⟨by intro a b; unfold entryLE DeltaKey.leP; omega⟩

instance {V : Type} : IsTrans (DeltaEntry V) entryLE :=
  ⟨by intro a b c; unfold entryLE DeltaKey.leP; omega⟩

/-- Modelled from the spec: the DeltaMemStore owns an ordered collection of
delta entries, keyed `(row, txid)` ascending (spec.md §3, §4.4). -/
structure DeltaMemStore (V : Type) where
  entries : List (DeltaEntry V)

/-- A freshly created, empty store. -/
def DeltaMemStore.emptyStore (V : Type) : DeltaMemStore V := ⟨[]⟩

/-- Modelled from the spec: `Update(txid, row, change)` inserts a new entry
keyed `(row, txid)` into the ordered collection; entries are never merged or
overwritten (spec.md §4.4). -/
def DeltaMemStore.Update {V : Type} (dms : DeltaMemStore V) (txid row : Nat)
    (change : RowChange V) : DeltaMemStore V :=
  ⟨dms.entries.orderedInsert entryLE ⟨⟨row, txid⟩, change⟩⟩

/-- Modelled from the spec: `Count()` is the number of delta entries, not of
distinct rows (spec.md §4.4). -/
def DeltaMemStore.Count {V : Type} (dms : DeltaMemStore V) : Nat :=
  dms.entries.length

/-- The store's ordering invariant. -/
def DeltaMemStore.SortedEntries {V : Type} (dms : DeltaMemStore V) : Prop :=
  dms.entries.Sorted entryLE

instance {V : Type} (dms : DeltaMemStore V) : Decidable dms.SortedEntries :=
  inferInstanceAs (Decidable (dms.entries.Pairwise entryLE))

/-- Modelled from the spec: `ScopedTransaction` construction calls
`StartTransaction`, destruction calls `CommitTransaction` (spec.md §4.2);
the body between the two is one `Update` on the store, as in the tests.
Returns the issued ID, the manager after the guard is destroyed, the updated
store, and the trace of manager calls the guard made. -/
def scopedUpdate {V : Type} (m : MvccManager) (dms : DeltaMemStore V)
    (row : Nat) (change : RowChange V) :
    Nat × MvccManager × DeltaMemStore V × List MvccEvent :=
  let p := m.StartTransaction
  let dms1 := dms.Update p.1 row change
  (p.1, p.2.CommitTransaction p.1, dms1, [MvccEvent.start p.1, MvccEvent.commit p.1])

/-- Runs one scoped-transaction `Update` per element of `l` (row, change),
as the test loops do. -/
def runUpdates {V : Type} (m : MvccManager) (dms : DeltaMemStore V) :
    List (Nat × RowChange V) → MvccManager × DeltaMemStore V
  | [] => (m, dms)
  | u :: us =>
    let r := scopedUpdate m dms u.1 u.2
    runUpdates r.2.1 r.2.2.1 us

/-! ## DMSIterator model -/

/-- Row-range test used by the iterator: entry's row is below `s`. -/
def rowLtB {V : Type} (s : Nat) (e : DeltaEntry V) : Bool :=
  decide (e.1.row_idx < s)

/-- Modelled from the spec: the delta iterator is a forward cursor over the
store's frozen entry list, bound to a snapshot; it tracks the next unread
entry (`cur_idx`), the next batch start (`pos`), and the entries collected
for the current batch (spec.md §4.5). -/
structure DMSIterator (V : Type) where
  snap : MvccSnapshot
  entries : List (DeltaEntry V)
  cur_idx : Nat
  pos : Nat
  prepared : List (DeltaEntry V)
  prepared_start : Nat

/-- Modelled from the spec: `NewDeltaIterator` returns a cursor over a
consistent view of the store bound to the given snapshot (spec.md §4.4). -/
def DeltaMemStore.NewDeltaIterator {V : Type} (dms : DeltaMemStore V)
    (snap : MvccSnapshot) : DMSIterator V :=
  ⟨snap, dms.entries, 0, 0, [], 0⟩

/-- Modelled from the spec: `SeekToOrdinal(row)` positions the cursor so the
next batch starts at `row`; on the ordered collection this is the index of
the first entry whose row is not below `row` (spec.md §4.5). -/
def DMSIterator.SeekToOrdinal {V : Type} (it : DMSIterator V) (row : Nat) :
    DMSIterator V :=
  { it with cur_idx := it.entries.countP (rowLtB row), pos := row }

/-- Modelled from the spec: `PrepareBatch(n)` scans forward through the
ordered entries collecting every entry with row in the batch range whose
transaction is visible under the bound snapshot; invisible entries are
passed over entirely, and the unread-entry cursor advances past everything
scanned (spec.md §4.5). -/
def DMSIterator.PrepareBatch {V : Type} (it : DMSIterator V) (n : Nat) :
    DMSIterator V :=
  let scan := (it.entries.drop it.cur_idx).takeWhile (rowLtB (it.pos + n))
  { it with
      prepared := scan.filter (fun e => it.snap.IsCommitted e.1.txid),
      cur_idx := it.cur_idx + scan.length,
      prepared_start := it.pos,
      pos := it.pos + n }

/-- Write one decoded value into a column block at an offset. -/
def writeCell {V : Type} (blk : Nat → V) (off : Nat) (v : V) : Nat → V :=
  fun i => if i = off then v else blk i

/-- The values an entry's change list carries for one column, in order. -/
def entryColValues {V : Type} (col : Nat) (e : DeltaEntry V) : List V :=
  (e.2.filter (fun cv => cv.1 == col)).map Prod.snd

/-- Modelled from the spec: `ApplyUpdates(col, block)` applies, in the
prepared (row, txid)-ascending order, every decoded change for `col` onto
the matching row offset of the block; later changes overwrite earlier ones
(spec.md §4.5).  The block is a total map from offsets to values. -/
def DMSIterator.ApplyUpdatesCol {V : Type} (it : DMSIterator V) (col : Nat)
    (blk : Nat → V) : Nat → V :=
  it.prepared.foldl (fun b e =>
    (entryColValues col e).foldl
      (fun b2 v => writeCell b2 (e.1.row_idx - it.prepared_start) v) b) blk

/-- The test harness `ApplyUpdates` helper from deltamemstore-test.cc:
new iterator, seek to `row`, prepare an `n`-row batch, apply column `col`
onto a block whose pre-update contents are `base`. -/
def applyThroughIterator {V : Type} (dms : DeltaMemStore V)
    (snap : MvccSnapshot) (row col n : Nat) (base : Nat → V) : Nat → V :=
  (((dms.NewDeltaIterator snap).SeekToOrdinal row).PrepareBatch n).ApplyUpdatesCol col base

/-- Read back one cell: a one-row batch at `row`, block pre-filled with
`baseV`. -/
def readCell {V : Type} (dms : DeltaMemStore V) (snap : MvccSnapshot)
    (row col : Nat) (baseV : V) : V :=
  applyThroughIterator dms snap row col 1 (fun _ => baseV) 0

/-- The last element of a list, or a default when the list is empty: the
outcome of applying a sequence of overwrites in order. -/
def lastOr {V : Type} (d : V) (l : List V) : V :=
  l.foldl (fun _ v => v) d

/-- Little-endian byte encoding of a 32-bit unsigned value, as the UINT32
column codec stores it. -/
def uint32Bytes (v : Nat) : List Nat :=
  [v % 256, v / 256 % 256, v / 65536 % 256, v / 16777216 % 256]

/-! ## Ordering lemmas for the entry list -/

/-- Entries ordered by row index only (a weakening of the full key order). -/
def RowLe {V : Type} (a b : DeltaEntry V) : Prop :=
  a.1.row_idx ≤ b.1.row_idx

theorem entryLE_rowLe {V : Type} {a b : DeltaEntry V} (h : entryLE a b) :
    RowLe a b := by
  unfold entryLE DeltaKey.leP at h
  unfold RowLe
  omega

theorem sorted_rowLe {V : Type} {l : List (DeltaEntry V)}
    (h : l.Sorted entryLE) : l.Pairwise RowLe :=
  List.Pairwise.imp entryLE_rowLe h

theorem takeWhile_eq_filter_of_rowSorted {V : Type} {l : List (DeltaEntry V)}
    (h : l.Pairwise RowLe) (s : Nat) :
    l.takeWhile (rowLtB s) = l.filter (rowLtB s) := by
  induction l with
  | nil => rfl
  | cons x xs ih =>
    rcases List.pairwise_cons.mp h with ⟨hx, hxs⟩
    by_cases hc : rowLtB s x = true
    · rw [List.takeWhile_cons, List.filter_cons, if_pos hc, if_pos hc, ih hxs]
    · rw [List.takeWhile_cons, List.filter_cons, if_neg hc, if_neg hc]
      symm
      rw [List.filter_eq_nil_iff]
      intro e he
      have h1 := hx e he
      unfold RowLe at h1
      simp only [rowLtB, decide_eq_true_eq] at hc ⊢
      omega

theorem drop_countP_eq_filter_of_rowSorted {V : Type} {l : List (DeltaEntry V)}
    (h : l.Pairwise RowLe) (s : Nat) :
    l.drop (l.countP (rowLtB s)) = l.filter (fun e => !rowLtB s e) := by
  induction l with
  | nil => rfl
  | cons x xs ih =>
    rcases List.pairwise_cons.mp h with ⟨hx, hxs⟩
    by_cases hc : rowLtB s x = true
    · have h1 : (x :: xs).countP (rowLtB s) = xs.countP (rowLtB s) + 1 := by
        simp [List.countP_cons, hc]
      rw [h1, List.drop_succ_cons, ih hxs, List.filter_cons, if_neg (by simp [hc])]
    · have h0 : xs.countP (rowLtB s) = 0 := by
        rw [List.countP_eq_zero]
        intro e he
        have h1 := hx e he
        unfold RowLe at h1
        simp only [rowLtB, decide_eq_true_eq] at hc ⊢
        omega
      have h1 : (x :: xs).countP (rowLtB s) = 0 := by
        simp [List.countP_cons, hc, h0]
      have h2 : (x :: xs).filter (fun e => !rowLtB s e) = x :: xs := by
        rw [List.filter_eq_self]
        intro e he
        rcases List.mem_cons.mp he with h3 | h3
        · subst h3
          simp [hc]
        · have h4 := hx e h3
          unfold RowLe at h4
          simp only [rowLtB, decide_eq_true_eq] at hc
          simp only [rowLtB, Bool.not_eq_eq_eq_not, Bool.not_true,
            decide_eq_false_iff_not]
          omega
      rw [h1, List.drop_zero, h2]

theorem countP_split {α : Type} (l : List α) (p q : α → Bool)
    (hpq : ∀ a ∈ l, p a = true → q a = true) :
    l.countP q = l.countP p + l.countP (fun a => q a && !p a) := by
  induction l with
  | nil => rfl
  | cons x xs ih =>
    have hx := hpq x (List.mem_cons_self x xs)
    have ih1 := ih (fun a ha hpa => hpq a (List.mem_cons_of_mem x ha) hpa)
    by_cases hp : p x = true
    · simp [List.countP_cons, hp, hx hp, ih1]
      omega
    · by_cases hq : q x = true
      · simp [List.countP_cons, hp, hq, ih1]
        omega
      · simp [List.countP_cons, hp, hq, ih1]

/-! ## Iterator batch characterization -/

/-- The iterator's internal cursor agrees with its batch position: the next
unread entry is the first one at or past `pos`. -/
def DMSIterator.Synced {V : Type} (it : DMSIterator V) : Prop :=
  it.cur_idx = it.entries.countP (rowLtB it.pos)

/-- The predicate a prepared batch realizes: row within `[lo, hi)` and
transaction visible in the snapshot. -/
def rangeVisibleB {V : Type} (snap : MvccSnapshot) (lo hi : Nat)
    (e : DeltaEntry V) : Bool :=
  snap.IsCommitted e.1.txid && (rowLtB hi e && !rowLtB lo e)

theorem SeekToOrdinal_synced {V : Type} (it : DMSIterator V) (row : Nat) :
    (it.SeekToOrdinal row).Synced := rfl

theorem PrepareBatch_spec {V : Type} (it : DMSIterator V) (n : Nat)
    (hs : it.entries.Pairwise RowLe) (hsync : it.Synced) :
    (it.PrepareBatch n).prepared
        = it.entries.filter (rangeVisibleB it.snap it.pos (it.pos + n))
      ∧ (it.PrepareBatch n).Synced := by
  have hscan : (it.entries.drop it.cur_idx).takeWhile (rowLtB (it.pos + n))
      = it.entries.filter (fun e => rowLtB (it.pos + n) e && !rowLtB it.pos e) := by
    rw [hsync, drop_countP_eq_filter_of_rowSorted hs,
      takeWhile_eq_filter_of_rowSorted (List.Pairwise.filter _ hs),
      List.filter_filter]
  constructor
  · show ((it.entries.drop it.cur_idx).takeWhile
        (rowLtB (it.pos + n))).filter (fun e => it.snap.IsCommitted e.1.txid) = _
    rw [hscan, List.filter_filter]
    rfl
  · show it.cur_idx
          + ((it.entries.drop it.cur_idx).takeWhile (rowLtB (it.pos + n))).length
        = it.entries.countP (rowLtB (it.pos + n))
    rw [hscan, hsync, ← List.countP_eq_length_filter,
      countP_split it.entries (rowLtB it.pos) (rowLtB (it.pos + n))
        (by intro a _ ha; simp only [rowLtB, decide_eq_true_eq] at ha ⊢; omega)]

/-! ## ApplyUpdates characterization -/

theorem foldl_writeCell_apply {V : Type} (off : Nat) (ws : List V)
    (blk : Nat → V) (i : Nat) :
    (ws.foldl (fun b v => writeCell b off v) blk) i
      = if i = off then lastOr (blk i) ws else blk i := by
  induction ws generalizing blk with
  | nil => simp [lastOr]
  | cons w ws ih =>
    rw [List.foldl_cons, ih]
    by_cases h : i = off
    · subst h
      simp [writeCell, lastOr]
    · simp [writeCell, h]

theorem lastOr_append {V : Type} (d : V) (l1 l2 : List V) :
    lastOr d (l1 ++ l2) = lastOr (lastOr d l1) l2 := by
  simp [lastOr, List.foldl_append]

theorem applyFold_apply {V : Type} (col start : Nat)
    (l : List (DeltaEntry V)) (blk : Nat → V) (i : Nat)
    (hrows : ∀ e ∈ l, start ≤ e.1.row_idx) :
    l.foldl (fun b e => (entryColValues col e).foldl
        (fun b2 v => writeCell b2 (e.1.row_idx - start) v) b) blk i
      = lastOr (blk i)
          ((l.filter (fun e => e.1.row_idx == start + i)).flatMap
            (entryColValues col)) := by
  induction l generalizing blk with
  | nil => simp [lastOr]
  | cons e rest ih =>
    rw [List.foldl_cons, ih _ (fun x hx => hrows x (List.mem_cons_of_mem e hx))]
    have hse : start ≤ e.1.row_idx := hrows e (List.mem_cons_self e rest)
    rw [foldl_writeCell_apply]
    by_cases h : e.1.row_idx = start + i
    · rw [if_pos (by omega), List.filter_cons, if_pos (by simp [h]),
        List.flatMap_cons, lastOr_append]
    · rw [if_neg (by omega), List.filter_cons, if_neg (by simp [h])]

/-! ## Read-back characterization -/

/-- The entries for `row` visible in `snap`, in store order (ascending
transaction ID). -/
def visibleRowEntries {V : Type} (dms : DeltaMemStore V) (snap : MvccSnapshot)
    (row : Nat) : List (DeltaEntry V) :=
  dms.entries.filter (fun e => e.1.row_idx == row && snap.IsCommitted e.1.txid)

/-- The visible values written to `(row, col)`, in ascending transaction-ID
order. -/
def visibleColValues {V : Type} (dms : DeltaMemStore V) (snap : MvccSnapshot)
    (row col : Nat) : List V :=
  (visibleRowEntries dms snap row).flatMap (entryColValues col)

theorem readCell_eq {V : Type} (dms : DeltaMemStore V) (snap : MvccSnapshot)
    (row col : Nat) (baseV : V) (hs : dms.entries.Pairwise RowLe) :
    readCell dms snap row col baseV
      = lastOr baseV (visibleColValues dms snap row col) := by
  unfold readCell applyThroughIterator
  obtain ⟨hprep, -⟩ :=
    PrepareBatch_spec ((dms.NewDeltaIterator snap).SeekToOrdinal row) 1 hs rfl
  have hpos : ((dms.NewDeltaIterator snap).SeekToOrdinal row).pos = row := rfl
  have hsnap : ((dms.NewDeltaIterator snap).SeekToOrdinal row).snap = snap := rfl
  have hent : ((dms.NewDeltaIterator snap).SeekToOrdinal row).entries = dms.entries := rfl
  rw [hpos, hsnap, hent] at hprep
  unfold DMSIterator.ApplyUpdatesCol
  have hstart : (((dms.NewDeltaIterator snap).SeekToOrdinal row).PrepareBatch 1).prepared_start
      = row := rfl
  rw [hstart, hprep]
  rw [applyFold_apply]
  · show lastOr baseV _ = lastOr baseV _
    congr 1
    rw [List.filter_filter]
    unfold visibleColValues visibleRowEntries
    congr 1
    apply List.filter_congr
    intro e _
    simp only [rangeVisibleB, rowLtB, Nat.add_zero]
    by_cases h : e.1.row_idx = row
    · have h1 : row < row + 1 := Nat.lt_succ_self row
      simp [h, h1, Nat.lt_irrefl]
    · have hb : (e.1.row_idx == row) = false := by simp [h]
      rw [hb]
      simp
  · intro e he
    have h1 := (List.mem_filter.mp he).2
    simp only [rangeVisibleB, rowLtB, Bool.and_eq_true, Bool.not_eq_eq_eq_not,
      Bool.not_true, decide_eq_false_iff_not] at h1
    omega

/-! ## Store evolution lemmas -/

theorem filter_orderedInsert_neg {V : Type} (p : DeltaEntry V → Bool)
    (e : DeltaEntry V) (l : List (DeltaEntry V)) (hp : p e = false) :
    (l.orderedInsert entryLE e).filter p = l.filter p := by
  induction l with
  | nil => simp [hp]
  | cons x xs ih =>
    simp only [List.orderedInsert]
    split
    · rw [List.filter_cons, if_neg (by simp [hp])]
    · simp only [List.filter_cons, ih]

theorem update_sorted {V : Type} (dms : DeltaMemStore V) (txid row : Nat)
    (change : RowChange V) (h : dms.SortedEntries) :
    (dms.Update txid row change).SortedEntries :=
  List.Sorted.orderedInsert _ _ h

theorem runUpdates_manager {V : Type} (l : List (Nat × RowChange V)) :
    ∀ (m : MvccManager) (dms : DeltaMemStore V),
      (runUpdates m dms l).1 = ⟨m.next_txid + l.length, m.inflight⟩ := by
  induction l with
  | nil => intro m dms; rfl
  | cons u us ih =>
    intro m dms
    have h1 : (scopedUpdate m dms u.1 u.2).2.1 = ⟨m.next_txid + 1, m.inflight⟩ := by
      simp [scopedUpdate, MvccManager.StartTransaction,
        MvccManager.CommitTransaction]
    simp only [runUpdates]
    rw [h1, ih]
    simp only [List.length_cons]
    congr 1
    omega

theorem runUpdates_count {V : Type} (l : List (Nat × RowChange V)) :
    ∀ (m : MvccManager) (dms : DeltaMemStore V),
      (runUpdates m dms l).2.Count = dms.Count + l.length := by
  induction l with
  | nil => intro m dms; rfl
  | cons u us ih =>
    intro m dms
    simp only [runUpdates]
    rw [ih]
    have h1 : (scopedUpdate m dms u.1 u.2).2.2.1.Count = dms.Count + 1 := by
      simp [scopedUpdate, DeltaMemStore.Update, DeltaMemStore.Count,
        List.orderedInsert_length]
    rw [h1]
    simp only [List.length_cons]
    omega

theorem runUpdates_sorted {V : Type} (l : List (Nat × RowChange V)) :
    ∀ (m : MvccManager) (dms : DeltaMemStore V), dms.SortedEntries →
      (runUpdates m dms l).2.SortedEntries := by
  induction l with
  | nil => intro m dms h; exact h
  | cons u us ih =>
    intro m dms h
    exact ih _ _ (update_sorted _ _ _ _ h)

/-- The entries a run of scoped updates starting at transaction ID `t`
creates, in insertion order: the `j`-th update gets ID `t + j`. -/
def buildEntries {V : Type} (t : Nat) : List (Nat × RowChange V) → List (DeltaEntry V)
  | [] => []
  | u :: us => ⟨⟨u.1, t⟩, u.2⟩ :: buildEntries (t + 1) us

theorem runUpdates_entries_perm {V : Type} (l : List (Nat × RowChange V)) :
    ∀ (m : MvccManager) (dms : DeltaMemStore V),
      (runUpdates m dms l).2.entries.Perm
        (buildEntries m.next_txid l ++ dms.entries) := by
  induction l with
  | nil => intro m dms; simp [runUpdates, buildEntries]
  | cons u us ih =>
    intro m dms
    simp only [runUpdates]
    have h1 := ih (scopedUpdate m dms u.1 u.2).2.1 (scopedUpdate m dms u.1 u.2).2.2.1
    have h2 : (scopedUpdate m dms u.1 u.2).2.1.next_txid = m.next_txid + 1 := rfl
    rw [h2] at h1
    have h3 : (scopedUpdate m dms u.1 u.2).2.2.1.entries.Perm
        (⟨⟨u.1, m.next_txid⟩, u.2⟩ :: dms.entries) :=
      List.perm_orderedInsert _ _ _
    exact h1.trans ((h3.append_left _).trans List.perm_middle)

theorem buildEntries_mem {V : Type} (l : List (Nat × RowChange V)) :
    ∀ (t : Nat) (e : DeltaEntry V), e ∈ buildEntries t l →
      e.1.row_idx ∈ l.map Prod.fst ∧ t ≤ e.1.txid ∧ e.1.txid < t + l.length := by
  induction l with
  | nil => intro t e he; simp [buildEntries] at he
  | cons u us ih =>
    intro t e he
    rcases List.mem_cons.mp he with h | h
    · subst h
      simp only [List.map_cons, List.mem_cons, List.length_cons]
      refine ⟨by simp, ?_, ?_⟩ <;> omega
    · obtain ⟨h1, h2, h3⟩ := ih (t + 1) e h
      simp only [List.map_cons, List.mem_cons, List.length_cons]
      exact ⟨Or.inr h1, by omega, by omega⟩

/-! ## Scenario: the same row updated twice (TestReUpdateSlice) -/

/-- The two-transaction re-update scenario of `TestReUpdateSlice`: the same
row `r` updated at column `c` under two consecutive scoped transactions,
first to `a`, then to `b`, on a fresh store and manager; snapshots taken
after each commit.  Returns (final store, snapshot after first commit,
snapshot after both commits). -/
def reUpdateRun (V : Type) (r c : Nat) (a b : V) :
    DeltaMemStore V × MvccSnapshot × MvccSnapshot :=
  let s1 := scopedUpdate MvccManager.init (DeltaMemStore.emptyStore V) r [(c, a)]
  let snapFirst := s1.2.1.TakeSnapshot
  let s2 := scopedUpdate s1.2.1 s1.2.2.1 r [(c, b)]
  (s2.2.2.1, snapFirst, s2.2.1.TakeSnapshot)

theorem reUpdateRun_entries (V : Type) (r c : Nat) (a b : V) :
    (reUpdateRun V r c a b).1.entries
      = [⟨⟨r, 1⟩, [(c, a)]⟩, ⟨⟨r, 2⟩, [(c, b)]⟩] := by
  show List.orderedInsert entryLE ⟨⟨r, 2⟩, [(c, b)]⟩ [⟨⟨r, 1⟩, [(c, a)]⟩] = _
  simp only [List.orderedInsert]
  rw [if_neg]
  unfold entryLE DeltaKey.leP
  simp only []
  omega

theorem reUpdateRun_rowSorted (V : Type) (r c : Nat) (a b : V) :
    (reUpdateRun V r c a b).1.entries.Pairwise RowLe := by
  rw [reUpdateRun_entries]
  simp [List.pairwise_cons, RowLe]

/-- C1: with the same row updated to `a` under txn 1 and to `b` under txn 2,
reading through the snapshot taken between the two commits yields `a`, and
the prepared batch under that snapshot contains only the first transaction's
entry — the second is skipped entirely (neither errors nor applies). -/
theorem snapshot_between_reads_first (V : Type) (r c : Nat) (a b baseV : V) :
    readCell (reUpdateRun V r c a b).1 (reUpdateRun V r c a b).2.1 r c baseV = a
      ∧ ((((reUpdateRun V r c a b).1.NewDeltaIterator
              (reUpdateRun V r c a b).2.1).SeekToOrdinal r).PrepareBatch 1).prepared
          = [⟨⟨r, 1⟩, [(c, a)]⟩] := by
  have he := reUpdateRun_entries V r c a b
  have hsnap : (reUpdateRun V r c a b).2.1 = ⟨2, []⟩ := rfl
  have hsorted := reUpdateRun_rowSorted V r c a b
  constructor
  · rw [readCell_eq _ _ _ _ _ hsorted]
    rw [hsnap]
    unfold visibleColValues visibleRowEntries
    rw [he]
    have hv1 : (MvccSnapshot.IsCommitted ⟨2, []⟩ 1) = true := by decide
    have hv2 : (MvccSnapshot.IsCommitted ⟨2, []⟩ 2) = false := by decide
    simp [List.filter_cons, hv1, hv2, entryColValues, lastOr]
  · obtain ⟨hprep, -⟩ :=
      PrepareBatch_spec (((reUpdateRun V r c a b).1.NewDeltaIterator
        (reUpdateRun V r c a b).2.1).SeekToOrdinal r) 1 hsorted rfl
    have hsn2 : (((reUpdateRun V r c a b).1.NewDeltaIterator
        (reUpdateRun V r c a b).2.1).SeekToOrdinal r).snap = ⟨2, []⟩ := hsnap
    have hpos2 : (((reUpdateRun V r c a b).1.NewDeltaIterator
        (reUpdateRun V r c a b).2.1).SeekToOrdinal r).pos = r := rfl
    have hent2 : (((reUpdateRun V r c a b).1.NewDeltaIterator
        (reUpdateRun V r c a b).2.1).SeekToOrdinal r).entries
        = (reUpdateRun V r c a b).1.entries := rfl
    rw [hsn2, hpos2, hent2, he] at hprep
    rw [hprep]
    have hv1 : (MvccSnapshot.IsCommitted ⟨2, []⟩ 1) = true := by decide
    have hv2 : (MvccSnapshot.IsCommitted ⟨2, []⟩ 2) = false := by decide
    have hlt : r < r + 1 := Nat.lt_succ_self r
    simp [List.filter_cons, rangeVisibleB, rowLtB, hv1, hv2, hlt, Nat.lt_irrefl]

/-! ## Last-writer-wins (C2) -/

/-- The spec's concrete scenario (§8): one uint32 column, row 0 updated to 0
under txn 1 and to 10 under txn 2. -/
def concreteScenario : DeltaMemStore (List Nat) × MvccSnapshot × MvccSnapshot :=
  reUpdateRun (List Nat) 0 0 (uint32Bytes 0) (uint32Bytes 10)

/-- C2: within one prepared batch the visible deltas for a row are applied in
ascending transaction-ID order (the visible-entry list is txid-sorted and the
read-back equals the last value in it), so the highest visible transaction ID
wins; concretely, a snapshot taken after both commits reads row 0 as 10. -/
theorem last_writer_wins {V : Type} (dms : DeltaMemStore V)
    (snap : MvccSnapshot) (row col : Nat) (baseV : V)
    (hs : dms.SortedEntries) :
    readCell dms snap row col baseV
        = lastOr baseV (visibleColValues dms snap row col)
      ∧ (visibleRowEntries dms snap row).Pairwise
          (fun e1 e2 => e1.1.txid ≤ e2.1.txid)
      ∧ readCell concreteScenario.1 concreteScenario.2.2 0 0 [] = uint32Bytes 10 := by
  refine ⟨readCell_eq dms snap row col baseV (sorted_rowLe hs), ?_, ?_⟩
  · have h1 : (visibleRowEntries dms snap row).Pairwise entryLE :=
      List.Pairwise.filter _ hs
    refine List.Pairwise.imp_of_mem ?_ h1
    intro e1 e2 h1m h2m hle
    have hr1 := (List.mem_filter.mp h1m).2
    have hr2 := (List.mem_filter.mp h2m).2
    simp only [Bool.and_eq_true, beq_iff_eq] at hr1 hr2
    unfold entryLE DeltaKey.leP at hle
    omega
  · rfl

/-! ## Entry-count accounting (C5) -/

/-- C5: M distinct rows updated once each from an empty store give
`Count() = M`; re-updating the same M rows under fresh transactions gives
`Count() = 2M`; and `Update` never removes an existing entry. -/
theorem count_accounting {V : Type} (m0 : MvccManager) (M : Nat)
    (l1 l2 : List (Nat × RowChange V))
    (h1 : l1.length = M) (h2 : l2.length = M)
    (hd : (l1.map Prod.fst).Nodup) (hsame : l2.map Prod.fst = l1.map Prod.fst) :
    (runUpdates m0 (DeltaMemStore.emptyStore V) l1).2.Count = M
      ∧ (runUpdates (runUpdates m0 (DeltaMemStore.emptyStore V) l1).1
            (runUpdates m0 (DeltaMemStore.emptyStore V) l1).2 l2).2.Count = 2 * M
      ∧ ∀ (dms : DeltaMemStore V) (txid row : Nat) (ch : RowChange V),
          ∀ e ∈ dms.entries, e ∈ (dms.Update txid row ch).entries := by
  refine ⟨?_, ?_, ?_⟩
  · rw [runUpdates_count]
    simp [DeltaMemStore.Count, DeltaMemStore.emptyStore, h1]
  · rw [runUpdates_count, runUpdates_count]
    simp [DeltaMemStore.Count, DeltaMemStore.emptyStore, h1, h2]
    omega
  · intro dms txid row ch e he
    show e ∈ dms.entries.orderedInsert entryLE ⟨⟨row, txid⟩, ch⟩
    exact (List.mem_orderedInsert entryLE).mpr (Or.inr he)

/-! ## Arena copy-safety (C6) -/

/-- The caller-side memory: address of a buffer to its current byte
contents. -/
def Heap : Type := Nat → List Nat

/-- A value held by a delta entry for a variable-length column: either bytes
owned by the store (copied into its Arena) or a raw reference into a caller
buffer. -/
inductive StoredVal where
  | copied (bytes : List Nat)
  | ref (addr : Nat)
deriving DecidableEq

/-- Resolve a stored value against the current heap: copied bytes are
self-contained; a reference reads whatever the buffer holds now. -/
def resolveVal (h : Heap) : StoredVal → List Nat
  | StoredVal.copied bs => bs
  | StoredVal.ref a => h a

/-- Modelled from the spec: `Update` copies any variable-length payload bytes
referenced by the change into the store's Arena before inserting the entry
(spec.md §4.4), so the entry holds `StoredVal.copied` of the bytes read from
the caller's buffer at call time — never a `StoredVal.ref` into it. -/
def updateFromBuffer (dms : DeltaMemStore StoredVal) (txid row col : Nat)
    (h : Heap) (addr : Nat) : DeltaMemStore StoredVal :=
  dms.Update txid row [(col, StoredVal.copied (h addr))]

/-- Read one cell through a snapshot, resolving the result against the
current heap. -/
def readCellResolved (dms : DeltaMemStore StoredVal) (h : Heap)
    (snap : MvccSnapshot) (row col : Nat) (baseV : StoredVal) : List Nat :=
  resolveVal h (readCell dms snap row col baseV)

/-- The TestReUpdateSlice buffer pattern: one scoped transaction updates a
fresh store from the buffer at `addr`, then a snapshot is taken; afterwards
the caller is free to clobber the buffer. -/
def bufferUpdateRun (h0 : Heap) (addr row col : Nat) :
    DeltaMemStore StoredVal × MvccSnapshot :=
  let p := MvccManager.init.StartTransaction
  let dms1 := updateFromBuffer (DeltaMemStore.emptyStore StoredVal) p.1 row col h0 addr
  (dms1, (p.2.CommitTransaction p.1).TakeSnapshot)

/-- C6: the value read back through a snapshot that includes the update is
the buffer's contents at `Update` time, for EVERY later heap — so two runs
that clobber the caller's buffer differently after `Update` returns read
back the same, original value. -/
theorem arena_copy_safety (h0 : Heap) (addr row col : Nat) (baseV : StoredVal)
    (hAfter1 hAfter2 : Heap) :
    readCellResolved (bufferUpdateRun h0 addr row col).1 hAfter1
        (bufferUpdateRun h0 addr row col).2 row col baseV = h0 addr
      ∧ readCellResolved (bufferUpdateRun h0 addr row col).1 hAfter1
            (bufferUpdateRun h0 addr row col).2 row col baseV
          = readCellResolved (bufferUpdateRun h0 addr row col).1 hAfter2
              (bufferUpdateRun h0 addr row col).2 row col baseV := by
  have key : ∀ hh : Heap,
      readCellResolved (bufferUpdateRun h0 addr row col).1 hh
        (bufferUpdateRun h0 addr row col).2 row col baseV = h0 addr := by
    intro hh
    unfold readCellResolved
    have he : (bufferUpdateRun h0 addr row col).1.entries
        = [⟨⟨row, 1⟩, [(col, StoredVal.copied (h0 addr))]⟩] := rfl
    have hsnap : (bufferUpdateRun h0 addr row col).2 = ⟨2, []⟩ := rfl
    have hsorted : (bufferUpdateRun h0 addr row col).1.entries.Pairwise RowLe := by
      rw [he]
      simp
    rw [readCell_eq _ _ _ _ _ hsorted, hsnap]
    unfold visibleColValues visibleRowEntries
    rw [he]
    have hv1 : (MvccSnapshot.IsCommitted ⟨2, []⟩ 1) = true := by decide
    simp [List.filter_cons, hv1, entryColValues, lastOr, resolveVal]
  exact ⟨key hAfter1, (key hAfter1).trans (key hAfter2).symm⟩

/-! ## Snapshot immutability (C7) -/

/-- C7: a snapshot's visibility decisions are fixed at capture time: every
transaction whose ID had not been issued when the snapshot was captured is
invisible in it forever, and re-reading any row through the old snapshot
after such a later transaction writes to the store yields exactly the value
read before. -/
theorem snapshot_immutable {V : Type} (m : MvccManager) (dms : DeltaMemStore V)
    (txid r row col : Nat) (change : RowChange V) (baseV : V)
    (hs : dms.SortedEntries) (ht : m.next_txid ≤ txid) :
    (∀ id0, m.next_txid ≤ id0 → m.TakeSnapshot.IsCommitted id0 = false)
      ∧ readCell (dms.Update txid r change) m.TakeSnapshot row col baseV
          = readCell dms m.TakeSnapshot row col baseV := by
  have hinv : ∀ id0, m.next_txid ≤ id0 → m.TakeSnapshot.IsCommitted id0 = false := by
    intro id0 hid
    have hlt : (decide (id0 < m.next_txid)) = false := by
      simp only [decide_eq_false_iff_not]
      omega
    simp [MvccSnapshot.IsCommitted, MvccManager.TakeSnapshot, hlt]
  refine ⟨hinv, ?_⟩
  have hs2 : (dms.Update txid r change).SortedEntries :=
    update_sorted _ _ _ _ hs
  rw [readCell_eq _ _ _ _ _ (sorted_rowLe hs2),
    readCell_eq _ _ _ _ _ (sorted_rowLe hs)]
  unfold visibleColValues visibleRowEntries
  have hfe : (dms.Update txid r change).entries.filter
        (fun e => e.1.row_idx == row && m.TakeSnapshot.IsCommitted e.1.txid)
      = dms.entries.filter
        (fun e => e.1.row_idx == row && m.TakeSnapshot.IsCommitted e.1.txid) := by
    show (dms.entries.orderedInsert entryLE ⟨⟨r, txid⟩, change⟩).filter _
        = dms.entries.filter _
    apply filter_orderedInsert_neg
    have hc := hinv txid ht
    simp [hc]
  rw [hfe]

/-! ## ScopedTransaction exactly-once commit (C8) -/

theorem contains_eq_false_of_not_mem {a : Nat} {l : List Nat} (h : a ∉ l) :
    l.contains a = false := by
  cases hc : l.contains a with
  | false => rfl
  | true => exact absurd (List.elem_iff.mp hc) h

/-- C8: a scoped transaction issues the manager's next ID (in-flight right
after construction), commits it exactly once on destruction (one commit
event in its trace; the final in-flight set is the original one), and the
transaction is visible in every snapshot taken afterward, no matter how many
further scoped transactions run. -/
theorem scoped_transaction_exactly_once {V : Type} (m : MvccManager)
    (dms : DeltaMemStore V) (row : Nat) (change : RowChange V)
    (hwf : ∀ id0 ∈ m.inflight, id0 < m.next_txid) :
    (scopedUpdate m dms row change).1 = m.next_txid
      ∧ (scopedUpdate m dms row change).1 ∈ m.StartTransaction.2.inflight
      ∧ (scopedUpdate m dms row change).2.1 = ⟨m.next_txid + 1, m.inflight⟩
      ∧ (scopedUpdate m dms row change).2.2.2.countP
            (fun ev => ev == MvccEvent.commit (scopedUpdate m dms row change).1) = 1
      ∧ ∀ (l : List (Nat × RowChange V)) (dms2 : DeltaMemStore V),
          ((runUpdates (scopedUpdate m dms row change).2.1 dms2 l).1.TakeSnapshot).IsCommitted
              (scopedUpdate m dms row change).1 = true := by
  have hfin : (scopedUpdate m dms row change).2.1 = ⟨m.next_txid + 1, m.inflight⟩ := by
    simp [scopedUpdate, MvccManager.StartTransaction, MvccManager.CommitTransaction]
  refine ⟨rfl, ?_, hfin, ?_, ?_⟩
  · show m.next_txid ∈ m.next_txid :: m.inflight
    exact List.mem_cons_self _ _
  · show List.countP _ [MvccEvent.start m.next_txid, MvccEvent.commit m.next_txid] = 1
    simp [List.countP_cons]
    rfl
  · intro l dms2
    have hid : (scopedUpdate m dms row change).1 = m.next_txid := rfl
    rw [hid, hfin, runUpdates_manager]
    have hnm : m.next_txid ∉ m.inflight := fun hmem => absurd (hwf _ hmem) (by omega)
    have hco := contains_eq_false_of_not_mem hnm
    have hlt : (decide (m.next_txid < m.next_txid + 1 + l.length)) = true := by
      simp only [decide_eq_true_eq]
      omega
    simp [MvccManager.TakeSnapshot, MvccSnapshot.IsCommitted, hco, hlt]
    exact hnm

/-! ## Sparse-update isolation (C3) -/

/-- Single-column changes, as TestDMSSparseUpdates builds them: each
(row, value) pair becomes an update of column 0 with that value. -/
def sparseChanges {V : Type} (upds : List (Nat × V)) : List (Nat × RowChange V) :=
  upds.map (fun u => (u.1, [(0, u.2)]))

theorem sparseChanges_map_fst {V : Type} (upds : List (Nat × V)) :
    (sparseChanges upds).map Prod.fst = upds.map Prod.fst := by
  unfold sparseChanges
  rw [List.map_map]
  rfl

theorem buildEntries_filter_not_mem {V : Type} (upds : List (Nat × RowChange V))
    (t i : Nat) (hi : i ∉ upds.map Prod.fst) :
    (buildEntries t upds).filter (fun e => e.1.row_idx == i) = [] := by
  rw [List.filter_eq_nil_iff]
  intro e he
  have h1 := (buildEntries_mem upds t e he).1
  simp only [beq_iff_eq]
  intro hcon
  rw [hcon] at h1
  exact hi h1

theorem buildEntries_filter_mem_nodup {V : Type} (upds : List (Nat × RowChange V)) :
    ∀ (t r0 : Nat) (ch : RowChange V), (upds.map Prod.fst).Nodup → (r0, ch) ∈ upds →
      ∃ tx, t ≤ tx ∧ tx < t + upds.length ∧
        (buildEntries t upds).filter (fun e => e.1.row_idx == r0)
          = [⟨⟨r0, tx⟩, ch⟩] := by
  induction upds with
  | nil => intro t r0 ch _ hp; simp at hp
  | cons u us ih =>
    intro t r0 ch hd hp
    rw [List.map_cons, List.nodup_cons] at hd
    rcases List.mem_cons.mp hp with h | h
    · rw [← h] at hd ⊢
      refine ⟨t, Nat.le_refl t, by simp only [List.length_cons]; omega, ?_⟩
      simp only [buildEntries]
      rw [List.filter_cons, if_pos (by simp),
        buildEntries_filter_not_mem us (t + 1) r0 hd.1]
    · have hp1 : r0 ∈ us.map Prod.fst := by
        have := List.mem_map_of_mem Prod.fst h
        simpa using this
      have hne : u.1 ≠ r0 := fun hEq => hd.1 (hEq ▸ hp1)
      obtain ⟨tx, htx1, htx2, heq⟩ := ih (t + 1) r0 ch hd.2 h
      refine ⟨tx, by omega, by simp only [List.length_cons]; omega, ?_⟩
      simp only [buildEntries]
      rw [List.filter_cons, if_neg (by simp [hne]), heq]

theorem filter_visible_buildEntries {V : Type} (upds : List (Nat × RowChange V))
    (t i bound : Nat) (hbound : t + upds.length ≤ bound) :
    (buildEntries t upds).filter
        (fun e => e.1.row_idx == i
          && MvccSnapshot.IsCommitted ⟨bound, []⟩ e.1.txid)
      = (buildEntries t upds).filter (fun e => e.1.row_idx == i) := by
  apply List.filter_congr
  intro e he
  obtain ⟨-, h2, h3⟩ := buildEntries_mem upds t e he
  have hc : MvccSnapshot.IsCommitted ⟨bound, []⟩ e.1.txid = true := by
    simp [MvccSnapshot.IsCommitted]
    omega
  rw [hc, Bool.and_true]

/-- The sparse-update scenario of TestDMSSparseUpdates: each (row, value)
pair of `upds` is applied by one scoped transaction as an update of column 0
on a fresh store. -/
def sparseRun {V : Type} (m0 : MvccManager) (upds : List (Nat × V)) :
    MvccManager × DeltaMemStore V :=
  runUpdates m0 (DeltaMemStore.emptyStore V) (sparseChanges upds)

/-- Read back rows [0, n) in one batch under a snapshot taken after all the
sparse updates committed, over a column block pre-filled with `marker`. -/
def sparseReadBack {V : Type} (m0 : MvccManager) (upds : List (Nat × V))
    (n : Nat) (marker : V) : Nat → V :=
  applyThroughIterator (sparseRun m0 upds).2 (sparseRun m0 upds).1.TakeSnapshot
    0 0 n (fun _ => marker)

/-- C3: for distinct rows below `n` each updated exactly once, the read-back
block holds the known value at every updated row and the pre-update marker
everywhere else — only cells with a visible delta are mutated. -/
theorem sparse_update_isolation {V : Type} (m0 : MvccManager)
    (upds : List (Nat × V)) (n : Nat) (marker : V)
    (hin : m0.inflight = [])
    (hd : (upds.map Prod.fst).Nodup) (hN : ∀ p ∈ upds, p.1 < n) :
    (∀ p ∈ upds, sparseReadBack m0 upds n marker p.1 = p.2)
      ∧ (∀ i, i < n → i ∉ upds.map Prod.fst →
          sparseReadBack m0 upds n marker i = marker) := by
  have hsorted : (sparseRun m0 upds).2.SortedEntries :=
    runUpdates_sorted _ _ _ List.sorted_nil
  have hlen : (sparseChanges upds).length = upds.length := by simp [sparseChanges]
  have hsnap : (sparseRun m0 upds).1.TakeSnapshot
      = ⟨m0.next_txid + upds.length, []⟩ := by
    show (runUpdates m0 (DeltaMemStore.emptyStore V) (sparseChanges upds)).1.TakeSnapshot = _
    rw [runUpdates_manager]
    simp [MvccManager.TakeSnapshot, hin, hlen]
  have key : ∀ i, i < n →
      sparseReadBack m0 upds n marker i
        = lastOr marker
            (((sparseRun m0 upds).2.entries.filter
                (fun e => e.1.row_idx == i
                  && MvccSnapshot.IsCommitted
                      ⟨m0.next_txid + upds.length, []⟩ e.1.txid)).flatMap
              (entryColValues 0)) := by
    intro i hi
    unfold sparseReadBack applyThroughIterator
    have hsorted2 : (((sparseRun m0 upds).2.NewDeltaIterator
        ((sparseRun m0 upds).1.TakeSnapshot)).SeekToOrdinal 0).entries.Pairwise RowLe :=
      sorted_rowLe hsorted
    obtain ⟨hprep, -⟩ := PrepareBatch_spec (((sparseRun m0 upds).2.NewDeltaIterator
      ((sparseRun m0 upds).1.TakeSnapshot)).SeekToOrdinal 0) n hsorted2 rfl
    have hsn2 : (((sparseRun m0 upds).2.NewDeltaIterator
        ((sparseRun m0 upds).1.TakeSnapshot)).SeekToOrdinal 0).snap
        = ⟨m0.next_txid + upds.length, []⟩ := hsnap
    have hpos2 : (((sparseRun m0 upds).2.NewDeltaIterator
        ((sparseRun m0 upds).1.TakeSnapshot)).SeekToOrdinal 0).pos = 0 := rfl
    have hent2 : (((sparseRun m0 upds).2.NewDeltaIterator
        ((sparseRun m0 upds).1.TakeSnapshot)).SeekToOrdinal 0).entries
        = (sparseRun m0 upds).2.entries := rfl
    rw [hsn2, hpos2, hent2] at hprep
    unfold DMSIterator.ApplyUpdatesCol
    have hstart : ((((sparseRun m0 upds).2.NewDeltaIterator
        ((sparseRun m0 upds).1.TakeSnapshot)).SeekToOrdinal 0).PrepareBatch n).prepared_start
        = 0 := rfl
    rw [hstart, hprep,
      applyFold_apply 0 0 _ _ i (fun e _ => Nat.zero_le _)]
    congr 1
    rw [List.filter_filter]
    congr 1
    apply List.filter_congr
    intro e _
    simp only [Nat.zero_add, rangeVisibleB, rowLtB]
    by_cases h : e.1.row_idx = i
    · have h3 : (decide (i < 0 + n)) = true := by
        simp only [decide_eq_true_eq]
        omega
      have h2 : (decide (i < 0)) = false := by simp
      simp [h, h2, h3]
      intro _
      omega
    · have hb : (e.1.row_idx == i) = false := by simp [h]
      rw [hb]
      simp
  have hperm : ∀ (p : DeltaEntry V → Bool),
      ((sparseRun m0 upds).2.entries.filter p).Perm
        ((buildEntries m0.next_txid (sparseChanges upds)).filter p) := by
    intro p
    have h1 := runUpdates_entries_perm (sparseChanges upds) m0 (DeltaMemStore.emptyStore V)
    have h2 : buildEntries m0.next_txid (sparseChanges upds)
        ++ (DeltaMemStore.emptyStore V).entries
        = buildEntries m0.next_txid (sparseChanges upds) := by
      simp [DeltaMemStore.emptyStore]
    rw [h2] at h1
    exact h1.filter p
  constructor
  · intro p hp
    have hi := hN p hp
    rw [key p.1 hi]
    have hvis := filter_visible_buildEntries (sparseChanges upds) m0.next_txid p.1
      (m0.next_txid + upds.length) (by simp [hlen])
    obtain ⟨tx, -, -, heq⟩ := buildEntries_filter_mem_nodup (sparseChanges upds)
      m0.next_txid p.1 [(0, p.2)]
      (by rw [sparseChanges_map_fst]; exact hd)
      (List.mem_map_of_mem (fun u => (u.1, [(0, u.2)])) hp)
    have h1 := hperm (fun e => e.1.row_idx == p.1
      && MvccSnapshot.IsCommitted ⟨m0.next_txid + upds.length, []⟩ e.1.txid)
    rw [hvis, heq] at h1
    rw [List.perm_singleton.mp h1]
    simp [entryColValues, lastOr]
  · intro i hi hmem
    rw [key i hi]
    have hnil := buildEntries_filter_not_mem (sparseChanges upds) m0.next_txid i
      (by rw [sparseChanges_map_fst]; exact hmem)
    have h1 := hperm (fun e => e.1.row_idx == i
      && MvccSnapshot.IsCommitted ⟨m0.next_txid + upds.length, []⟩ e.1.txid)
    rw [filter_visible_buildEntries (sparseChanges upds) m0.next_txid i
      (m0.next_txid + upds.length) (by simp [hlen]), hnil] at h1
    rw [h1.eq_nil]
    simp [lastOr]

/-! ## Batch-boundary equivalence (C4) -/

/-- The lock-step batch protocol of TestIteratorDoesUpdates: seek the cursor
to `s`, then perform `j` successive `PrepareBatch n` calls. -/
def batchIter {V : Type} (dms : DeltaMemStore V) (snap : MvccSnapshot)
    (s n : Nat) : Nat → DMSIterator V
  | 0 => (dms.NewDeltaIterator snap).SeekToOrdinal s
  | j + 1 => (batchIter dms snap s n j).PrepareBatch n

theorem batchIter_invariant {V : Type} (dms : DeltaMemStore V)
    (snap : MvccSnapshot) (s n : Nat) (hs : dms.entries.Pairwise RowLe) :
    ∀ j, (batchIter dms snap s n j).entries = dms.entries
      ∧ (batchIter dms snap s n j).snap = snap
      ∧ (batchIter dms snap s n j).pos = s + j * n
      ∧ (batchIter dms snap s n j).Synced := by
  intro j
  induction j with
  | zero => exact ⟨rfl, rfl, by simp [batchIter, DMSIterator.SeekToOrdinal], rfl⟩
  | succ j ih =>
    obtain ⟨he, hsn, hp, hsy⟩ := ih
    refine ⟨he, hsn, ?_, ?_⟩
    · have h1 : ((batchIter dms snap s n j).PrepareBatch n).pos
          = (batchIter dms snap s n j).pos + n := rfl
      show ((batchIter dms snap s n j).PrepareBatch n).pos = s + (j + 1) * n
      rw [h1, hp]
      ring
    · obtain ⟨-, h2⟩ :=
        PrepareBatch_spec (batchIter dms snap s n j) n (by rw [he]; exact hs) hsy
      exact h2

theorem batchIter_prepared {V : Type} (dms : DeltaMemStore V)
    (snap : MvccSnapshot) (s n : Nat) (hs : dms.entries.Pairwise RowLe) (j : Nat) :
    (batchIter dms snap s n (j + 1)).prepared
        = dms.entries.filter (rangeVisibleB snap (s + j * n) (s + j * n + n))
      ∧ (batchIter dms snap s n (j + 1)).prepared_start = s + j * n := by
  obtain ⟨he, hsn, hp, hsy⟩ := batchIter_invariant dms snap s n hs j
  constructor
  · obtain ⟨h1, -⟩ :=
      PrepareBatch_spec (batchIter dms snap s n j) n (by rw [he]; exact hs) hsy
    show ((batchIter dms snap s n j).PrepareBatch n).prepared = _
    rw [h1, he, hsn, hp]
  · show ((batchIter dms snap s n j).PrepareBatch n).prepared_start = _
    have h1 : ((batchIter dms snap s n j).PrepareBatch n).prepared_start
        = (batchIter dms snap s n j).pos := rfl
    rw [h1, hp]

theorem applyBatch_value {V : Type} (entries : List (DeltaEntry V))
    (snap : MvccSnapshot) (lo len i0 col : Nat) (blk : Nat → V) (hi0 : i0 < len) :
    lastOr (blk i0) (((entries.filter (rangeVisibleB snap lo (lo + len))).filter
        (fun e => e.1.row_idx == lo + i0)).flatMap (entryColValues col))
      = lastOr (blk i0) ((entries.filter
          (fun e => e.1.row_idx == lo + i0 && snap.IsCommitted e.1.txid)).flatMap
        (entryColValues col)) := by
  congr 1
  rw [List.filter_filter]
  congr 1
  apply List.filter_congr
  intro e _
  simp only [rangeVisibleB, rowLtB]
  by_cases h : e.1.row_idx = lo + i0
  · have h2 : (decide (lo + i0 < lo + len)) = true := by
      simp only [decide_eq_true_eq]
      omega
    have h3 : (decide (lo + i0 < lo)) = false := by
      simp only [decide_eq_false_iff_not]
      omega
    simp [h, h2, h3]
    intro _
    omega
  · have hb : (e.1.row_idx == lo + i0) = false := by simp [h]
    rw [hb]
    simp

/-- C4: iterating in consecutive fixed-size batches applies exactly the same
per-row values as iterating the whole range in a single batch: for every
store, snapshot, start offset `s`, batch size `n` and batch count `k`, cell
`i` of batch `j` equals cell `j * n + i` of the one-shot `k * n`-row batch.
-/
theorem batch_boundary_equivalence {V : Type} (dms : DeltaMemStore V)
    (snap : MvccSnapshot) (s n k col : Nat) (base : Nat → V)
    (hs : dms.SortedEntries) (j i : Nat) (hj : j < k) (hi : i < n) :
    (batchIter dms snap s n (j + 1)).ApplyUpdatesCol col
        (fun t => base (j * n + t)) i
      = (batchIter dms snap s (k * n) 1).ApplyUpdatesCol col base (j * n + i) := by
  have hrle := sorted_rowLe hs
  obtain ⟨hp1, hst1⟩ := batchIter_prepared dms snap s n hrle j
  obtain ⟨hp2, hst2⟩ := batchIter_prepared dms snap s (k * n) hrle 0
  simp only [Nat.zero_mul, Nat.add_zero] at hp2 hst2
  have hL : (batchIter dms snap s n (j + 1)).ApplyUpdatesCol col
        (fun t => base (j * n + t)) i
      = lastOr (base (j * n + i))
          ((dms.entries.filter (fun e => e.1.row_idx == s + j * n + i
            && snap.IsCommitted e.1.txid)).flatMap (entryColValues col)) := by
    unfold DMSIterator.ApplyUpdatesCol
    have hrows1 : ∀ e ∈ dms.entries.filter
        (rangeVisibleB snap (s + j * n) (s + j * n + n)),
        s + j * n ≤ e.1.row_idx := by
      intro e he
      have h1 := (List.mem_filter.mp he).2
      simp only [rangeVisibleB, rowLtB, Bool.and_eq_true, Bool.not_eq_eq_eq_not,
        Bool.not_true, decide_eq_false_iff_not] at h1
      omega
    rw [hst1, hp1, applyFold_apply col (s + j * n) _ _ i hrows1]
    exact applyBatch_value dms.entries snap (s + j * n) n i col
      (fun t => base (j * n + t)) hi
  have hb2 : j * n + i < k * n := by
    have h1 : j + 1 ≤ k := hj
    have h2 : (j + 1) * n ≤ k * n := Nat.mul_le_mul_right n h1
    have h3 : j * n + i < (j + 1) * n := by
      rw [Nat.succ_mul]
      omega
    omega
  have hR : (batchIter dms snap s (k * n) 1).ApplyUpdatesCol col base (j * n + i)
      = lastOr (base (j * n + i))
          ((dms.entries.filter (fun e => e.1.row_idx == s + (j * n + i)
            && snap.IsCommitted e.1.txid)).flatMap (entryColValues col)) := by
    unfold DMSIterator.ApplyUpdatesCol
    have hrows2 : ∀ e ∈ dms.entries.filter (rangeVisibleB snap s (s + k * n)),
        s ≤ e.1.row_idx := by
      intro e he
      have h1 := (List.mem_filter.mp he).2
      simp only [rangeVisibleB, rowLtB, Bool.and_eq_true, Bool.not_eq_eq_eq_not,
        Bool.not_true, decide_eq_false_iff_not] at h1
      omega
    rw [hst2, hp2, applyFold_apply col s _ _ (j * n + i) hrows2]
    exact applyBatch_value dms.entries snap s (k * n) (j * n + i) col base hb2
  rw [hL, hR]
  have hassoc : s + j * n + i = s + (j * n + i) := by omega
  rw [hassoc]

/-! ## Witnesses -/

/-- Witness for C2 at the concrete scenario store. -/
theorem last_writer_wins_witness :
    concreteScenario.1.SortedEntries
      ∧ (readCell concreteScenario.1 concreteScenario.2.2 0 0 []
            = lastOr [] (visibleColValues concreteScenario.1 concreteScenario.2.2 0 0)
          ∧ (visibleRowEntries concreteScenario.1 concreteScenario.2.2 0).Pairwise
              (fun e1 e2 => e1.1.txid ≤ e2.1.txid)
          ∧ readCell concreteScenario.1 concreteScenario.2.2 0 0 [] = uint32Bytes 10) :=
  ⟨by decide,
    last_writer_wins concreteScenario.1 concreteScenario.2.2 0 0 [] (by decide)⟩

/-- Witness for C3: rows 2 and 0 of 3 rows updated to 7 and 9. -/
theorem sparse_update_isolation_witness :
    (MvccManager.init.inflight = []
        ∧ (([(2, 7), (0, 9)] : List (Nat × Nat)).map Prod.fst).Nodup
        ∧ ∀ p ∈ ([(2, 7), (0, 9)] : List (Nat × Nat)), p.1 < 3)
      ∧ ((∀ p ∈ ([(2, 7), (0, 9)] : List (Nat × Nat)),
            sparseReadBack MvccManager.init [(2, 7), (0, 9)] 3 5 p.1 = p.2)
          ∧ ∀ i, i < 3 → i ∉ ([(2, 7), (0, 9)] : List (Nat × Nat)).map Prod.fst →
              sparseReadBack MvccManager.init [(2, 7), (0, 9)] 3 5 i = 5) :=
  ⟨⟨rfl, by decide, by decide⟩,
    sparse_update_isolation MvccManager.init [(2, 7), (0, 9)] 3 5 rfl
      (by decide) (by decide)⟩

/-- Witness for C4: a 4-entry store scanned from offset 1 in two batches of 2
versus one batch of 4, compared at batch 1, cell 0. -/
theorem batch_boundary_equivalence_witness :
    ((sparseRun MvccManager.init [(0, 10), (1, 11), (2, 12), (3, 13)]).2.SortedEntries
        ∧ 1 < 2 ∧ 0 < 2)
      ∧ (batchIter (sparseRun MvccManager.init [(0, 10), (1, 11), (2, 12), (3, 13)]).2
            (sparseRun MvccManager.init [(0, 10), (1, 11), (2, 12), (3, 13)]).1.TakeSnapshot
            1 2 (1 + 1)).ApplyUpdatesCol 0 (fun t => 1 * 2 + t) 0
          = (batchIter (sparseRun MvccManager.init [(0, 10), (1, 11), (2, 12), (3, 13)]).2
              (sparseRun MvccManager.init [(0, 10), (1, 11), (2, 12), (3, 13)]).1.TakeSnapshot
              1 (2 * 2) 1).ApplyUpdatesCol 0 (fun t => t) (1 * 2 + 0) :=
  ⟨⟨by decide, by decide, by decide⟩,
    batch_boundary_equivalence
      (sparseRun MvccManager.init [(0, 10), (1, 11), (2, 12), (3, 13)]).2
      (sparseRun MvccManager.init [(0, 10), (1, 11), (2, 12), (3, 13)]).1.TakeSnapshot
      1 2 2 0 (fun t => t) (by decide) 1 0 (by decide) (by decide)⟩

/-- Witness for C5 with M = 2 rows (0 and 5), updated then re-updated. -/
theorem count_accounting_witness :
    (([(0, [(0, 1)]), (5, [(0, 2)])] : List (Nat × RowChange Nat)).length = 2
        ∧ ([(0, [(0, 3)]), (5, [(0, 4)])] : List (Nat × RowChange Nat)).length = 2
        ∧ (([(0, [(0, 1)]), (5, [(0, 2)])] : List (Nat × RowChange Nat)).map Prod.fst).Nodup
        ∧ ([(0, [(0, 3)]), (5, [(0, 4)])] : List (Nat × RowChange Nat)).map Prod.fst
            = ([(0, [(0, 1)]), (5, [(0, 2)])] : List (Nat × RowChange Nat)).map Prod.fst)
      ∧ ((runUpdates MvccManager.init (DeltaMemStore.emptyStore Nat)
            [(0, [(0, 1)]), (5, [(0, 2)])]).2.Count = 2
        ∧ (runUpdates (runUpdates MvccManager.init (DeltaMemStore.emptyStore Nat)
              [(0, [(0, 1)]), (5, [(0, 2)])]).1
            (runUpdates MvccManager.init (DeltaMemStore.emptyStore Nat)
              [(0, [(0, 1)]), (5, [(0, 2)])]).2
            [(0, [(0, 3)]), (5, [(0, 4)])]).2.Count = 2 * 2
        ∧ ∀ (dms : DeltaMemStore Nat) (txid row : Nat) (ch : RowChange Nat),
            ∀ e ∈ dms.entries, e ∈ (dms.Update txid row ch).entries) :=
  ⟨⟨by decide, by decide, by decide, by decide⟩,
    count_accounting MvccManager.init 2 [(0, [(0, 1)]), (5, [(0, 2)])]
      [(0, [(0, 3)]), (5, [(0, 4)])] (by decide) (by decide) (by decide) (by decide)⟩

/-- Witness for C7: a store with one committed entry, a later transaction ID
7 not yet issued at capture time. -/
theorem snapshot_immutable_witness :
    ((sparseRun MvccManager.init [(0, 1)]).2.SortedEntries ∧ 5 ≤ 7)
      ∧ ((∀ id0, (5 : Nat) ≤ id0 →
            (MvccManager.TakeSnapshot ⟨5, []⟩).IsCommitted id0 = false)
        ∧ readCell ((sparseRun MvccManager.init [(0, 1)]).2.Update 7 0 [(0, 9)])
              (MvccManager.TakeSnapshot ⟨5, []⟩) 0 0 0
            = readCell (sparseRun MvccManager.init [(0, 1)]).2
              (MvccManager.TakeSnapshot ⟨5, []⟩) 0 0 0) :=
  ⟨⟨by decide, by decide⟩,
    snapshot_immutable ⟨5, []⟩ (sparseRun MvccManager.init [(0, 1)]).2
      7 0 0 0 [(0, 9)] 0 (by decide) (by decide)⟩

/-- Witness for C8: a manager with two in-flight transactions below the next
ID. -/
theorem scoped_transaction_exactly_once_witness :
    (∀ id0 ∈ (⟨4, [2, 3]⟩ : MvccManager).inflight, id0 < (⟨4, [2, 3]⟩ : MvccManager).next_txid)
      ∧ ((scopedUpdate ⟨4, [2, 3]⟩ (DeltaMemStore.emptyStore Nat) 0 [(0, 1)]).1
            = (⟨4, [2, 3]⟩ : MvccManager).next_txid
        ∧ (scopedUpdate ⟨4, [2, 3]⟩ (DeltaMemStore.emptyStore Nat) 0 [(0, 1)]).1
            ∈ (MvccManager.StartTransaction ⟨4, [2, 3]⟩).2.inflight
        ∧ (scopedUpdate ⟨4, [2, 3]⟩ (DeltaMemStore.emptyStore Nat) 0 [(0, 1)]).2.1
            = ⟨(⟨4, [2, 3]⟩ : MvccManager).next_txid + 1, (⟨4, [2, 3]⟩ : MvccManager).inflight⟩
        ∧ (scopedUpdate ⟨4, [2, 3]⟩ (DeltaMemStore.emptyStore Nat) 0 [(0, 1)]).2.2.2.countP
            (fun ev => ev == MvccEvent.commit
              (scopedUpdate ⟨4, [2, 3]⟩ (DeltaMemStore.emptyStore Nat) 0 [(0, 1)]).1) = 1
        ∧ ∀ (l : List (Nat × RowChange Nat)) (dms2 : DeltaMemStore Nat),
            ((runUpdates (scopedUpdate ⟨4, [2, 3]⟩ (DeltaMemStore.emptyStore Nat) 0 [(0, 1)]).2.1
                dms2 l).1.TakeSnapshot).IsCommitted
              (scopedUpdate ⟨4, [2, 3]⟩ (DeltaMemStore.emptyStore Nat) 0 [(0, 1)]).1 = true) :=
  ⟨by decide,
    scoped_transaction_exactly_once ⟨4, [2, 3]⟩ (DeltaMemStore.emptyStore Nat)
      0 [(0, 1)] (by decide)⟩
